import Mathlib

/-!
# Verification of the Overnight_Futures liquidity / reference-price pipeline

Shallow embedding of the core pipeline of the `Overnight_Futures` repository:

* `comp_liquid_contract.py` — the Liquidity Selector (`compute_liquid_contracts`);
* `load_reference_prices.py` — the Reference Price Builder (`process_symbol` and
  its lookup helpers `get_price_at`, `get_exact_field`, `get_last_before`);
* `calc_overnight_stats_we.py` / `calc_overnight_stats.py` — the return
  computations of the Statistics Engine (`compute_reference_stats`).

Modelling conventions, fixed by the source:

* Bar timestamps are stored as strings `YYYY-MM-DD HH:MM` (see
  `load_contracts.py`, `load_bars_for_file`: `dt.strftime("%Y-%m-%d %H:%M")`),
  i.e. minute resolution with no seconds.  We split a timestamp into a `date`
  (a day number, playing the role of SQLite `date(timestamp)` /
  `julianday(date)`, so that calendar-day differences are plain subtraction)
  and `hm` (minutes after midnight, playing the role of
  `strftime('%H:%M', timestamp)`; comparison of zero-padded `HH:MM` strings is
  exactly numeric comparison of `hm`).
* Prices are modelled as rationals (`ℚ`); volumes as `Option Nat`
  (`load_bars_for_file` stores `NULL` volume when the field is empty).
* Day-of-week: day numbers count days from a Monday epoch, so
  `d % 7` is the pandas `dayofweek` convention (Monday = 0 … Sunday = 6).
-/

namespace OvernightFutures

/-- A row of the `bars_5min` table.  `date` is the calendar-day number of the
bar's start timestamp, `hm` its minutes-after-midnight.  The table is uniquely
keyed by `(contract_id, timestamp)` (`INSERT OR REPLACE` in
`load_bars_for_file`). -/
structure Bar where
  contract_id : Nat
  date : Nat
  hm : Nat
  open_ : ℚ
  high : ℚ
  low : ℚ
  close : ℚ
  volume : Option Nat
  deriving DecidableEq, Repr

/-- A row of the `contracts` table.  `last_trade_date` is the day number of the
contract's last trading day, or `none` when unset (nullable column). -/
structure Contract where
  contract_id : Nat
  symbol_code : String
  month_code : String
  year : Nat
  last_trade_date : Option Nat
  deriving DecidableEq, Repr

/-- A row of the `liquid_contract_daily` table, keyed by
`(symbol_code, trade_date)`. -/
structure LiquidRow where
  symbol_code : String
  trade_date : Nat
  contract_id : Nat
  deriving DecidableEq, Repr

/-- A row of the `daily_reference_prices` table, keyed by
`(symbol_code, trade_date)`.  The three prices are nullable. -/
structure RefRow where
  symbol_code : String
  trade_date : Nat
  price_open : Option ℚ
  price_close : Option ℚ
  prev_close : Option ℚ
  deriving DecidableEq, Repr

/-- The four column names accepted by `get_exact_field` / `get_last_before`
(`ALLOWED_FIELDS = {"open", "high", "low", "close"}` in
`load_reference_prices.py`). -/
inductive BarField where
  | open_ | high | low | close
  deriving DecidableEq, Repr

/-- Read the selected column from a bar. -/
def BarField.val : BarField → Bar → ℚ
  | .open_, b => b.open_
  | .high, b => b.high
  | .low, b => b.low
  | .close, b => b.close

/-! ## Configuration constants (`config.py`), expressed in model units. -/

/-- `MAX_DAYS_TO_LAST_DAY = 100` (calendar days). -/
def MAX_DAYS_TO_LAST_DAY : Nat := 100

/-- `MIN_DAILY_VOLUME = 1500`. -/
def MIN_DAILY_VOLUME : Nat := 1500

/-- `REQUIRED_OPEN_START = "10:00"`, as minutes after midnight. -/
def REQUIRED_OPEN_START_HM : Nat := 600

/-- `REQUIRED_OPEN_END = "10:30"`, as minutes after midnight. -/
def REQUIRED_OPEN_END_HM : Nat := 630

/-- Market open time `"09:30"` used by `process_symbol`, as minutes after
midnight. -/
def OPEN_TIME_HM : Nat := 570

/-- Market close time `"16:00"` used by `process_symbol`, as minutes after
midnight. -/
def CLOSE_TIME_HM : Nat := 960

/-! ## Reference Price Builder (`load_reference_prices.py`) -/

/-- One step of the `ORDER BY timestamp DESC LIMIT 1` scan: keep whichever of
the accumulator and the next bar starts later.  (Timestamps are
minute-resolution, so within a fixed date the timestamp order is the `hm`
order; the first bar is kept on an `hm` tie, which the
`(contract_id, timestamp)` key rules out anyway.) -/
def latestStep (acc : Option Bar) (b : Bar) : Option Bar :=
  match acc with
  | none => some b
  | some a => if a.hm < b.hm then some b else some a

/-- `ORDER BY timestamp DESC LIMIT 1` over bars sharing one `date` (see
`latestStep`). -/
def latestBar (l : List Bar) : Option Bar :=
  l.foldl latestStep none

/-- `get_price_at` of `load_reference_prices.py`: the `close` of the
most-recent bar for `contract_id` on `date` whose `HH:MM` start is at-or-before
(`inclusive = true`) or strictly before (`inclusive = false`) `time`. -/
def get_price_at (bars : List Bar) (contract_id date time : Nat)
    (inclusive : Bool) : Option ℚ :=
  let cand := bars.filter (fun b =>
    b.contract_id = contract_id ∧ b.date = date ∧
      (if inclusive then b.hm ≤ time else b.hm < time))
  (latestBar cand).map (·.close)

/-- `get_exact_field`: the requested field of the bar starting exactly at
`time` on `date` (`LIMIT 1` with the unique `(contract_id, timestamp)` key:
the first matching row). -/
def get_exact_field (bars : List Bar) (contract_id date time : Nat)
    (field : BarField) : Option ℚ :=
  (bars.find? (fun b =>
    b.contract_id = contract_id ∧ b.date = date ∧ b.hm = time)).map field.val

/-- `get_last_before`: the requested field of the last bar strictly before
`time` on `date`. -/
def get_last_before (bars : List Bar) (contract_id date time : Nat)
    (field : BarField) : Option ℚ :=
  let cand := bars.filter (fun b =>
    b.contract_id = contract_id ∧ b.date = date ∧ b.hm < time)
  (latestBar cand).map field.val

/-- Insert a value into a strictly sorted list, dropping duplicates: the
evaluation of `SELECT DISTINCT … ORDER BY` below. -/
def insertDistinct (x : Nat) : List Nat → List Nat
  | [] => [x]
  | y :: ys =>
      if x < y then x :: y :: ys
      else if x = y then y :: ys
      else y :: insertDistinct x ys

/-- Strictly sorted deduplication of a list of day numbers
(`SELECT DISTINCT … ORDER BY`). -/
def distinctSorted (l : List Nat) : List Nat :=
  l.foldr insertDistinct []

/-- `fetch_trade_dates`: `SELECT DISTINCT trade_date FROM liquid_contract_daily
WHERE symbol_code = ? ORDER BY trade_date`. -/
def fetch_trade_dates (ld : List LiquidRow) (symbol_code : String) : List Nat :=
  distinctSorted ((ld.filter (fun r => r.symbol_code = symbol_code)).map
    (·.trade_date))

/-- `fetch_contract_for_date`: the `contract_id` of the `liquid_contract_daily`
row for `(symbol_code, trade_date)` (at most one row under the table key;
`fetchone` returns the first). -/
def fetch_contract_for_date (ld : List LiquidRow) (symbol_code : String)
    (trade_date : Nat) : Option Nat :=
  (ld.find? (fun r =>
    r.symbol_code = symbol_code ∧ r.trade_date = trade_date)).map
    (·.contract_id)

/-- The loop body of `process_symbol` for position `i` of the trade-date list
`days`: `none` models the `continue` when no liquid contract is found. -/
def refRowAt (bars : List Bar) (ld : List LiquidRow) (symbol_code : String)
    (days : List Nat) (i : Nat) : Option RefRow :=
  match days[i]? with
  | none => none
  | some day =>
    match fetch_contract_for_date ld symbol_code day with
    | none => none
    | some cid =>
      let price_open :=
        match get_exact_field bars cid day OPEN_TIME_HM .open_ with
        | some p => some p
        | none => get_last_before bars cid day OPEN_TIME_HM .close
      let price_close := get_price_at bars cid day CLOSE_TIME_HM false
      let prev_close :=
        if 0 < i then
          match days[i-1]? with
          | some prev_day => get_price_at bars cid prev_day CLOSE_TIME_HM false
          | none => none
        else none
      some ⟨symbol_code, day, price_open, price_close, prev_close⟩

/-- The rows built by `process_symbol` for one symbol: the
`for idx, day in enumerate(days)` loop, skipping days without a liquid
contract. -/
def process_symbol_rows (bars : List Bar) (ld : List LiquidRow)
    (symbol_code : String) : List RefRow :=
  let days := fetch_trade_dates ld symbol_code
  (List.range days.length).filterMap (refRowAt bars ld symbol_code days)

/-! ## Liquidity Selector (`comp_liquid_contract.py`)

The SQL of `compute_liquid_contracts` is embedded CTE by CTE.  One point needs
care: `time(b.timestamp)` on a `YYYY-MM-DD HH:MM` timestamp yields the string
`HH:MM:SS` (with `SS = 00`), and `BETWEEN '10:00' AND '10:30'` compares
strings.  `'HH:MM:00' >= '10:00'` holds iff `HH:MM >= 10:00` (at equality the
longer string is larger), while `'HH:MM:00' <= '10:30'` holds iff
`HH:MM < 10:30` strictly (`'10:30:00' > '10:30'`).  So the open window is
half-open: `REQUIRED_OPEN_START_HM ≤ hm < REQUIRED_OPEN_END_HM`. -/

/-- The open-window test of the `allowed_dates` CTE
(`time(b.timestamp) BETWEEN ? AND ?` with the string-comparison semantics
described above). -/
def inOpenWindow (hm : Nat) : Bool :=
  REQUIRED_OPEN_START_HM ≤ hm ∧ hm < REQUIRED_OPEN_END_HM

/-- `JOIN contracts c ON c.contract_id = b.contract_id WHERE c.symbol_code = ?`
for a bar's contract id (the `contracts` table is keyed by `contract_id`). -/
def contractOfSymbol (contracts : List Contract) (symbol_code : String)
    (cid : Nat) : Bool :=
  contracts.any (fun c => c.contract_id = cid ∧ c.symbol_code = symbol_code)

/-- The `allowed_dates` CTE: the distinct dates on which the symbol has at
least one bar in the required open window. -/
def allowed_dates (bars : List Bar) (contracts : List Contract)
    (symbol_code : String) : List Nat :=
  distinctSorted ((bars.filter (fun b =>
    contractOfSymbol contracts symbol_code b.contract_id ∧
      inOpenWindow b.hm)).map (·.date))

/-- The expiry-proximity test of the `daily` CTE:
`c.last_trade_date IS NOT NULL AND julianday(c.last_trade_date) -
julianday(date(b.timestamp)) BETWEEN 0 AND MAX_DAYS_TO_LAST_DAY`.  Dates are
day numbers, so the `julianday` difference is integer subtraction. -/
def expiryOk (c : Contract) (date : Nat) : Bool :=
  match c.last_trade_date with
  | none => false
  | some ltd => 0 ≤ (ltd : Int) - date ∧ (ltd : Int) - date ≤ MAX_DAYS_TO_LAST_DAY

/-- The per-contract filters of the `daily` CTE that depend only on the
`(date, contract_id)` group key: symbol match and expiry proximity, via the
keyed `contracts` join. -/
def contractEligible (contracts : List Contract) (symbol_code : String)
    (date cid : Nat) : Bool :=
  contracts.any (fun c =>
    c.contract_id = cid ∧ c.symbol_code = symbol_code ∧ expiryOk c date)

/-- `SUM(COALESCE(b.volume, 0))` over the `(date, contract_id)` group of
`bars_5min` rows.  (The other `WHERE` conditions of the `daily` CTE are
constant on the group, so they filter whole groups, not summands.) -/
def volSum (bars : List Bar) (cid date : Nat) : Nat :=
  ((bars.filter (fun b => b.contract_id = cid ∧ b.date = date)).map
    (fun b => b.volume.getD 0)).sum

/-- The contract ids forming `daily`-CTE groups for `date`: contracts with at
least one bar on the date, passing the symbol/expiry filters, with the date in
`allowed_dates`, and `HAVING vol_sum >= MIN_DAILY_VOLUME`. -/
def candidates (bars : List Bar) (contracts : List Contract)
    (symbol_code : String) (date : Nat) : List Nat :=
  (distinctSorted ((bars.filter (fun b => b.date = date)).map
    (·.contract_id))).filter (fun cid =>
      contractEligible contracts symbol_code date cid ∧
        date ∈ allowed_dates bars contracts symbol_code ∧
        MIN_DAILY_VOLUME ≤ volSum bars cid date)

/-- One step of winner selection: keep the incumbent `a` unless challenger `b`
has strictly larger summed volume, or equal volume and a smaller contract id
(`ORDER BY vol_sum DESC, contract_id` in the `ranked` CTE). -/
def pickBetter (bars : List Bar) (date : Nat) (a b : Nat) : Nat :=
  if volSum bars a date < volSum bars b date ∨
      (volSum bars b date = volSum bars a date ∧ b < a) then b else a

/-- The `ranked` CTE's `rn = 1` row for `date`: the candidate maximising
`(vol_sum DESC, contract_id ASC)`, or `none` when the date has no
candidates. -/
def winner (bars : List Bar) (contracts : List Contract)
    (symbol_code : String) (date : Nat) : Option Nat :=
  match candidates bars contracts symbol_code date with
  | [] => none
  | c :: cs => some (cs.foldl (pickBetter bars date) c)

/-- The result set of `compute_liquid_contracts`'s query:
`(trade_date, contract_id)` winners, ordered by trade_date.  (Dates with
candidates are a subset of `allowed_dates`; `filterMap` keeps exactly
those.) -/
def compute_liquid_winners (bars : List Bar) (contracts : List Contract)
    (symbol_code : String) : List (Nat × Nat) :=
  (allowed_dates bars contracts symbol_code).filterMap (fun d =>
    (winner bars contracts symbol_code d).map (fun c => (d, c)))

/-! ## Store state and dry-run semantics -/

/-- The persisted store: the four tables the pipeline reads and writes. -/
structure Store where
  bars : List Bar
  contracts : List Contract
  liquid : List LiquidRow
  refPrices : List RefRow
  deriving DecidableEq, Repr

/-- `INSERT OR REPLACE INTO liquid_contract_daily`: replace the row with the
same `(symbol_code, trade_date)` key, if any, with the new row. -/
def upsertLiquidRow (table : List LiquidRow) (r : LiquidRow) : List LiquidRow :=
  (table.filter (fun x =>
    ¬(x.symbol_code = r.symbol_code ∧ x.trade_date = r.trade_date))) ++ [r]

/-- `INSERT OR REPLACE INTO daily_reference_prices`: replace the row with the
same `(symbol_code, trade_date)` key, if any, with the new row. -/
def upsertRefRow (table : List RefRow) (r : RefRow) : List RefRow :=
  (table.filter (fun x =>
    ¬(x.symbol_code = r.symbol_code ∧ x.trade_date = r.trade_date))) ++ [r]

/-- Store-level semantics of `compute_liquid_contracts(conn, symbol, dry_run)`:
with no winners or with `dry_run` set the function returns before
`executemany`, leaving the store untouched; otherwise it upserts the winner
rows and commits. -/
def compute_liquid_contracts_run (s : Store) (symbol_code : String)
    (dry_run : Bool) : Store :=
  let winners := compute_liquid_winners s.bars s.contracts symbol_code
  if winners = [] then s
  else if dry_run then s
  else { s with liquid := winners.foldl (fun t (w : Nat × Nat) =>
    upsertLiquidRow t ⟨symbol_code, w.1, w.2⟩) s.liquid }

/-- Store-level semantics of `process_symbol(conn, symbol, dry_run)` combined
with `main`'s dry-run transaction: with no rows or with `dry_run` set (where
`main` wraps the call in `BEGIN … ROLLBACK`) nothing is persisted; otherwise
the computed rows are upserted and committed. -/
def process_symbol_run (s : Store) (symbol_code : String)
    (dry_run : Bool) : Store :=
  let rows := process_symbol_rows s.bars s.liquid symbol_code
  if rows = [] then s
  else if dry_run then s
  else { s with refPrices := rows.foldl upsertRefRow s.refPrices }

/-! ## Statistics Engine (`calc_overnight_stats_we.py`, and the identical
return guards of `calc_overnight_stats.py` lines 59–77)

The engine reads `daily_reference_prices` rows ordered by `trade_date` and
computes per-row log returns with `np.where` guards.  The guards and the
weekday classification are the verified content here; `np.log` is applied to a
ratio of prices, and we record that *ratio* (the argument of the logarithm) —
an injective, order-preserving stand-in that keeps every definedness and
classification question intact while staying computable. -/

/-- pandas `dayofweek` on a day number counted from a Monday epoch:
Monday = 0, …, Sunday = 6. -/
def dayofweek (d : Nat) : Nat := d % 7

/-- The intraday return guard and log-argument
(`np.where(open.notna & close.notna & (open != 0) & prev_close.notna,
np.log(close / open), nan)`): `some` of the ratio fed to `np.log` when the
guard passes, `none` for the `NaN` branch. -/
def intraday_log (r : RefRow) : Option ℚ :=
  match r.price_open, r.price_close, r.prev_close with
  | some o, some c, some _ => if o ≠ 0 then some (c / o) else none
  | _, _, _ => none

/-- The overnight return guard and log-argument
(`np.where(open.notna & prev_close.notna & (prev_close != 0),
np.log(open / prev_close), nan)`). -/
def overnight_log (r : RefRow) : Option ℚ :=
  match r.price_open, r.prev_close with
  | some o, some p => if p ≠ 0 then some (o / p) else none
  | _, _ => none

/-- `weekend_mask` at row `i` of the ordered series: the shifted previous row
exists, its weekday is Friday (4) and the current row's weekday is Monday (0).
Row 0 has `prev_trade_date = NaT`, whose comparisons are all `False`. -/
def weekend_mask (rows : List RefRow) (i : Nat) : Bool :=
  match i with
  | 0 => false
  | j + 1 =>
    match rows[j]?, rows[j+1]? with
    | some p, some c => dayofweek p.trade_date = 4 ∧ dayofweek c.trade_date = 0
    | _, _ => false

/-- `business_mask` at row `i`: the previous row's weekday is Mon–Thu (0–3)
and the current row's weekday is exactly one more. -/
def business_mask (rows : List RefRow) (i : Nat) : Bool :=
  match i with
  | 0 => false
  | j + 1 =>
    match rows[j]?, rows[j+1]? with
    | some p, some c =>
        dayofweek p.trade_date ≤ 3 ∧
          dayofweek c.trade_date = dayofweek p.trade_date + 1
    | _, _ => false

/-- `overnight_weekend_log` at row `i`:
`np.where(weekend_mask, overnight_log, nan)`. -/
def overnight_weekend_log (rows : List RefRow) (i : Nat) : Option ℚ :=
  if weekend_mask rows i then (rows[i]?).bind overnight_log else none

/-- `overnight_business_log` at row `i`:
`np.where(business_mask, overnight_log, nan)`. -/
def overnight_business_log (rows : List RefRow) (i : Nat) : Option ℚ :=
  if business_mask rows i then (rows[i]?).bind overnight_log else none

/-! ## Concrete evaluation data

A small store exercising the pipeline: symbol `"ES"` with contracts 1 and 2,
two trading days (day numbers 10 and 11), a bar starting exactly at 16:00 on
day 10, a missing 09:30 bar on day 11 (exercising the open fallback), and a
summed-volume tie on day 11 (exercising the contract-id tie-break). -/

def wBars : List Bar := [
  ⟨1, 10, 570, 100, 101, 99, 101, some 2000⟩,
  ⟨1, 10, 615, 101, 103, 100, 102, some 1000⟩,
  ⟨1, 10, 955, 109, 111, 108, 110, some 500⟩,
  ⟨1, 10, 960, 110, 112, 109, 999, some 100⟩,
  ⟨1, 11, 565, 98, 99, 97, 99, none⟩,
  ⟨1, 11, 600, 99, 104, 98, 103, some 2000⟩,
  ⟨1, 11, 955, 110, 112, 109, 111, some 0⟩,
  ⟨2, 10, 615, 200, 201, 199, 200, some 2000⟩,
  ⟨2, 11, 600, 201, 202, 200, 201, some 2000⟩]

def wContracts : List Contract :=
  [⟨1, "ES", "H", 2026, some 40⟩, ⟨2, "ES", "M", 2026, some 70⟩]

def wLd : List LiquidRow := [⟨"ES", 10, 1⟩, ⟨"ES", 11, 1⟩]

/-- A store for dry-run evaluation. -/
def wStore : Store := ⟨wBars, wContracts, wLd, []⟩

/-- Bars for a date whose only symbol bar starts outside the open window. -/
def wBarsOutside : List Bar := [⟨1, 5, 700, 10, 10, 10, 10, some 99999⟩]

def wContractsOutside : List Contract := [⟨1, "ES", "H", 2026, some 50⟩]

/-- Reference rows with a Friday (day 4) → Monday (day 7) transition. -/
def wRows : List RefRow :=
  [⟨"ES", 4, some 100, some 101, none⟩, ⟨"ES", 7, some 102, some 103, some 101⟩]

/-! ## Specification-side predicates

Named after the spec's wording; the theorems below connect them to the
embedded code. -/

/-- The spec's "close of the most recent bar whose hour:minute start time is
strictly before `t` on `date` for `cid`":  `p` is the `close` of a bar of the
contract on the date starting strictly before `t`, and no such bar starts
later than it. -/
def IsLastCloseBefore (bars : List Bar) (cid date t : Nat) (p : ℚ) : Prop :=
  ∃ b, b ∈ bars ∧ b.contract_id = cid ∧ b.date = date ∧ b.hm < t ∧
    b.close = p ∧
    ∀ b', b' ∈ bars → b'.contract_id = cid → b'.date = date → b'.hm < t →
      b'.hm ≤ b.hm

/-- The `bars_5min` table key: at most one bar per
`(contract_id, timestamp)`. -/
def BarsKeyed (bars : List Bar) : Prop :=
  ∀ b1, b1 ∈ bars → ∀ b2, b2 ∈ bars → b1.contract_id = b2.contract_id →
    b1.date = b2.date → b1.hm = b2.hm → b1 = b2

instance BarsKeyed.decidable (bars : List Bar) : Decidable (BarsKeyed bars) := by
  unfold BarsKeyed
  infer_instance

/-- `c` dominates `c'` in the `ORDER BY vol_sum DESC, contract_id` order for
`date`: strictly more volume, or equal volume and a no-larger id. -/
def Dominates (bars : List Bar) (date c c' : Nat) : Prop :=
  volSum bars c' date < volSum bars c date ∨
    (volSum bars c' date = volSum bars c date ∧ c ≤ c')

/-! ## Helper lemmas -/

lemma latestStep_some (a b : Bar) :
    latestStep (some a) b = if a.hm < b.hm then some b else some a := rfl

/-- Folding `latestStep` from a seed bar yields a bar of the list (or the
seed) whose `hm` dominates the seed and every list element. -/
lemma foldl_latestStep_spec (l : List Bar) : ∀ a : Bar,
    ∃ b, l.foldl latestStep (some a) = some b ∧ (b = a ∨ b ∈ l) ∧
      a.hm ≤ b.hm ∧ ∀ x ∈ l, x.hm ≤ b.hm := by
  induction l with
  | nil =>
    intro a
    exact ⟨a, rfl, Or.inl rfl, le_refl _, by simp⟩
  | cons x xs ih =>
    intro a
    simp only [List.foldl_cons, latestStep_some]
    by_cases hlt : a.hm < x.hm
    · obtain ⟨b, hb, hmem, hle, hmax⟩ := ih x
      rw [if_pos hlt]
      refine ⟨b, hb, ?_, le_of_lt (lt_of_lt_of_le hlt hle), ?_⟩
      · rcases hmem with h | h
        · exact Or.inr (h ▸ List.mem_cons_self x xs)
        · exact Or.inr (List.mem_cons_of_mem x h)
      · intro y hy
        rcases List.mem_cons.1 hy with h | h
        · exact h ▸ hle
        · exact hmax y h
    · obtain ⟨b, hb, hmem, hle, hmax⟩ := ih a
      rw [if_neg hlt]
      refine ⟨b, hb, ?_, hle, ?_⟩
      · rcases hmem with h | h
        · exact Or.inl h
        · exact Or.inr (List.mem_cons_of_mem x h)
      · intro y hy
        rcases List.mem_cons.1 hy with h | h
        · exact h ▸ le_trans (Nat.le_of_not_lt hlt) hle
        · exact hmax y h

/-- `latestBar` returns a member of the list with maximal `hm`. -/
lemma latestBar_spec {l : List Bar} {b : Bar} (h : latestBar l = some b) :
    b ∈ l ∧ ∀ x ∈ l, x.hm ≤ b.hm := by
  cases l with
  | nil => simp [latestBar] at h
  | cons x xs =>
    have hx : latestBar (x :: xs) = xs.foldl latestStep (some x) := rfl
    obtain ⟨b', hb', hmem, hle, hmax⟩ := foldl_latestStep_spec xs x
    rw [hx, hb'] at h
    obtain rfl : b' = b := by injection h
    refine ⟨?_, ?_⟩
    · rcases hmem with h | h
      · exact h ▸ List.mem_cons_self x xs
      · exact List.mem_cons_of_mem x h
    · intro y hy
      rcases List.mem_cons.1 hy with h | h
      · exact h ▸ hle
      · exact hmax y h

/-- A nonempty list has a latest bar. -/
lemma latestBar_isSome {l : List Bar} (h : l ≠ []) : ∃ b, latestBar l = some b := by
  cases l with
  | nil => exact absurd rfl h
  | cons x xs =>
    obtain ⟨b, hb, -⟩ := foldl_latestStep_spec xs x
    exact ⟨b, hb⟩

/-- Characterisation of a successful strictly-before lookup
(`get_price_at … inclusive=False`): the result is the spec's "close of the
most recent bar strictly before `t`". -/
lemma get_price_at_false_spec {bars : List Bar} {cid d t : Nat} {p : ℚ}
    (h : get_price_at bars cid d t false = some p) :
    IsLastCloseBefore bars cid d t p := by
  unfold get_price_at at h
  simp only [Option.map_eq_some'] at h
  obtain ⟨b, hb, hclose⟩ := h
  obtain ⟨hmem, hmax⟩ := latestBar_spec hb
  rw [List.mem_filter] at hmem
  obtain ⟨hbars, hpred⟩ := hmem
  simp only [decide_eq_true_eq, if_neg, Bool.if_false_left] at hpred
  refine ⟨b, hbars, hpred.1, hpred.2.1, ?_, hclose, ?_⟩
  · simpa using hpred.2.2
  · intro b' hb' hc' hd' hh'
    exact hmax b' (List.mem_filter.2 ⟨hb', by simp [hc', hd', hh']⟩)

/-- Characterisation of a successful `get_last_before` lookup: the result is
the requested field of the most recent bar strictly before `t`. -/
lemma get_last_before_spec {bars : List Bar} {cid d t : Nat} {f : BarField}
    {p : ℚ} (h : get_last_before bars cid d t f = some p) :
    ∃ b, b ∈ bars ∧ b.contract_id = cid ∧ b.date = d ∧ b.hm < t ∧
      f.val b = p ∧
      ∀ b', b' ∈ bars → b'.contract_id = cid → b'.date = d → b'.hm < t →
        b'.hm ≤ b.hm := by
  unfold get_last_before at h
  simp only [Option.map_eq_some'] at h
  obtain ⟨b, hb, hval⟩ := h
  obtain ⟨hmem, hmax⟩ := latestBar_spec hb
  rw [List.mem_filter] at hmem
  obtain ⟨hbars, hpred⟩ := hmem
  simp only [decide_eq_true_eq] at hpred
  refine ⟨b, hbars, hpred.1, hpred.2.1, hpred.2.2, hval, ?_⟩
  intro b' hb' hc' hd' hh'
  exact hmax b' (List.mem_filter.2 ⟨hb', by simp [hc', hd', hh']⟩)

/-- When no bar of the contract on the date starts strictly before `t`,
`get_last_before` returns `none`. -/
lemma get_last_before_eq_none {bars : List Bar} {cid d t : Nat} {f : BarField}
    (h : ∀ b, b ∈ bars → b.contract_id = cid → b.date = d → ¬ b.hm < t) :
    get_last_before bars cid d t f = none := by
  unfold get_last_before
  have : bars.filter (fun b => decide
      (b.contract_id = cid ∧ b.date = d ∧ b.hm < t)) = [] := by
    rw [List.filter_eq_nil_iff]
    intro b hb
    simp only [decide_eq_true_eq, not_and]
    intro hc hd
    exact h b hb hc hd
  rw [this]
  rfl

/-- `get_exact_field` on a keyed bar list returns the requested field of the
unique bar starting exactly at `t`, when that bar exists. -/
lemma get_exact_field_of_mem {bars : List Bar} {cid d t : Nat} {f : BarField}
    {b : Bar} (hkey : BarsKeyed bars) (hb : b ∈ bars)
    (hc : b.contract_id = cid) (hd : b.date = d) (hh : b.hm = t) :
    get_exact_field bars cid d t f = some (f.val b) := by
  unfold get_exact_field
  have hsome : (bars.find? (fun b => decide
      (b.contract_id = cid ∧ b.date = d ∧ b.hm = t))).isSome := by
    rw [List.find?_isSome]
    exact ⟨b, hb, by simp [hc, hd, hh]⟩
  obtain ⟨b', hb'⟩ := Option.isSome_iff_exists.1 hsome
  have hpred := List.find?_some hb'
  simp only [decide_eq_true_eq] at hpred
  have hmem := List.mem_of_find?_eq_some hb'
  have : b' = b := by
    refine (hkey b' hmem b hb ?_ ?_ ?_).symm ▸ rfl
    · exact hpred.1.trans hc.symm
    · exact hpred.2.1.trans hd.symm
    · exact hpred.2.2.trans hh.symm
  rw [hb', this]
  rfl

/-- `get_exact_field` returns `none` when no bar of the contract starts
exactly at `t` on the date. -/
lemma get_exact_field_eq_none {bars : List Bar} {cid d t : Nat} {f : BarField}
    (h : ∀ b, b ∈ bars → ¬(b.contract_id = cid ∧ b.date = d ∧ b.hm = t)) :
    get_exact_field bars cid d t f = none := by
  unfold get_exact_field
  have : bars.find? (fun b => decide
      (b.contract_id = cid ∧ b.date = d ∧ b.hm = t)) = none := by
    rw [List.find?_eq_none]
    intro b hb
    simpa using h b hb
  rw [this]
  rfl
lemma mem_insertDistinct {x a : Nat} : ∀ {l : List Nat},
    a ∈ insertDistinct x l ↔ a = x ∨ a ∈ l := by
  intro l
  induction l with
  | nil => simp [insertDistinct]
  | cons y ys ih =>
    unfold insertDistinct
    by_cases h1 : x < y
    · simp [h1]
    · by_cases h2 : x = y
      · rw [if_neg h1, if_pos h2]
        subst h2
        simp only [List.mem_cons]
        tauto
      · simp only [if_neg h1, if_neg h2, List.mem_cons, ih]
        tauto

lemma mem_distinctSorted {a : Nat} : ∀ {l : List Nat},
    a ∈ distinctSorted l ↔ a ∈ l := by
  intro l
  induction l with
  | nil => simp [distinctSorted]
  | cons x xs ih =>
    show a ∈ insertDistinct x (distinctSorted xs) ↔ _
    rw [mem_insertDistinct, ih, List.mem_cons]

lemma pairwise_insertDistinct {x : Nat} : ∀ {l : List Nat},
    l.Pairwise (· < ·) → (insertDistinct x l).Pairwise (· < ·) := by
  intro l
  induction l with
  | nil => intro; simp [insertDistinct]
  | cons y ys ih =>
    intro h
    rw [List.pairwise_cons] at h
    unfold insertDistinct
    by_cases h1 : x < y
    · rw [if_pos h1, List.pairwise_cons]
      refine ⟨?_, List.pairwise_cons.2 h⟩
      intro b hb
      rcases List.mem_cons.1 hb with hb | hb
      · exact hb ▸ h1
      · exact lt_trans h1 (h.1 b hb)
    · by_cases h2 : x = y
      · rw [if_neg h1, if_pos h2]
        exact List.pairwise_cons.2 h
      · rw [if_neg h1, if_neg h2, List.pairwise_cons]
        have hyx : y < x := by omega
        refine ⟨?_, ih h.2⟩
        intro b hb
        rcases mem_insertDistinct.1 hb with hb | hb
        · exact hb ▸ hyx
        · exact h.1 b hb

lemma pairwise_distinctSorted : ∀ (l : List Nat),
    (distinctSorted l).Pairwise (· < ·) := by
  intro l
  induction l with
  | nil => simp [distinctSorted]
  | cons x xs ih => exact pairwise_insertDistinct ih

/-- Membership in the trade-date list of a symbol. -/
lemma mem_fetch_trade_dates {ld : List LiquidRow} {sym : String} {d : Nat} :
    d ∈ fetch_trade_dates ld sym ↔
      ∃ r, r ∈ ld ∧ r.symbol_code = sym ∧ r.trade_date = d := by
  unfold fetch_trade_dates
  rw [mem_distinctSorted]
  simp only [List.mem_map, List.mem_filter, decide_eq_true_eq]
  constructor
  · rintro ⟨r, ⟨hr, hs⟩, hd⟩
    exact ⟨r, hr, hs, hd⟩
  · rintro ⟨r, hr, hs, hd⟩
    exact ⟨r, ⟨hr, hs⟩, hd⟩

/-- Every trade date of a symbol has a liquid-contract row, so the builder's
per-day lookup always succeeds. -/
lemma fetch_contract_isSome {ld : List LiquidRow} {sym : String} {d : Nat}
    (h : d ∈ fetch_trade_dates ld sym) :
    ∃ cid, fetch_contract_for_date ld sym d = some cid := by
  obtain ⟨r, hr, hs, hd⟩ := mem_fetch_trade_dates.1 h
  unfold fetch_contract_for_date
  have hfound : (ld.find? (fun r => decide
      (r.symbol_code = sym ∧ r.trade_date = d))).isSome := by
    rw [List.find?_isSome]
    exact ⟨r, hr, by simp [hs, hd]⟩
  obtain ⟨r', hr'⟩ := Option.isSome_iff_exists.1 hfound
  exact ⟨r'.contract_id, by rw [hr']; rfl⟩

lemma filterMap_range_eq_map {α : Type} (f : Nat → Option α) (g : Nat → α) :
    ∀ n : Nat, (∀ i, i < n → f i = some (g i)) →
      (List.range n).filterMap f = (List.range n).map g := by
  intro n
  induction n with
  | zero => intro; rfl
  | succ n ih =>
    intro h
    rw [List.range_succ, List.filterMap_append, List.map_append,
      ih (fun i hi => h i (Nat.lt_succ_of_lt hi))]
    simp [h n (Nat.lt_succ_self n)]

/-- The reference row built at position `i`, unfolded: the liquid contract of
the day, the exact-open / last-before-open fallback, the strictly-before
close, and the previous day's strictly-before close. -/
lemma refRowAt_eq (bars : List Bar) {ld : List LiquidRow} {sym : String}
    {days : List Nat} {i : Nat} {day cid : Nat}
    (hd : days[i]? = some day)
    (hc : fetch_contract_for_date ld sym day = some cid) :
    refRowAt bars ld sym days i = some
      ⟨sym, day,
        (match get_exact_field bars cid day OPEN_TIME_HM .open_ with
          | some p => some p
          | none => get_last_before bars cid day OPEN_TIME_HM .close),
        get_price_at bars cid day CLOSE_TIME_HM false,
        (if 0 < i then
          match days[i-1]? with
          | some prev_day => get_price_at bars cid prev_day CLOSE_TIME_HM false
          | none => none
        else none)⟩ := by
  simp only [refRowAt, hd, hc]

/-- The builder never skips a fetched trade date: `refRowAt` is `some` at
every position of the trade-date list. -/
lemma refRowAt_isSome (bars : List Bar) {ld : List LiquidRow} {sym : String}
    {i : Nat} (hi : i < (fetch_trade_dates ld sym).length) :
    ∃ row, refRowAt bars ld sym (fetch_trade_dates ld sym) i = some row := by
  have hd : (fetch_trade_dates ld sym)[i]? =
      some ((fetch_trade_dates ld sym).get ⟨i, hi⟩) := by
    simp
  obtain ⟨cid, hc⟩ := fetch_contract_isSome
    (List.get_mem (fetch_trade_dates ld sym) i hi)
  exact ⟨_, refRowAt_eq bars hd hc⟩

/-- Indexing the builder's output: row `i` is exactly `refRowAt … i`. -/
lemma process_symbol_rows_get (bars : List Bar) {ld : List LiquidRow}
    {sym : String} {i : Nat} (hi : i < (fetch_trade_dates ld sym).length) :
    (process_symbol_rows bars ld sym)[i]? =
      refRowAt bars ld sym (fetch_trade_dates ld sym) i := by
  unfold process_symbol_rows
  have hg : ∀ j, j < (fetch_trade_dates ld sym).length →
      refRowAt bars ld sym (fetch_trade_dates ld sym) j = some
        ((refRowAt bars ld sym (fetch_trade_dates ld sym) j).getD
          ⟨sym, 0, none, none, none⟩) := by
    intro j hj
    obtain ⟨row, hrow⟩ := refRowAt_isSome bars hj
    rw [hrow]
    rfl
  rw [filterMap_range_eq_map _ _ _ hg, List.getElem?_map,
    List.getElem?_range hi]
  simp only [Option.map_some']
  exact (hg i hi).symm

/-- The builder emits one row per fetched trade date. -/
lemma process_symbol_rows_length (bars : List Bar) {ld : List LiquidRow}
    {sym : String} :
    (process_symbol_rows bars ld sym).length =
      (fetch_trade_dates ld sym).length := by
  unfold process_symbol_rows
  have hg : ∀ j, j < (fetch_trade_dates ld sym).length →
      refRowAt bars ld sym (fetch_trade_dates ld sym) j = some
        ((refRowAt bars ld sym (fetch_trade_dates ld sym) j).getD
          ⟨sym, 0, none, none, none⟩) := by
    intro j hj
    obtain ⟨row, hrow⟩ := refRowAt_isSome bars hj
    rw [hrow]
    rfl
  rw [filterMap_range_eq_map _ _ _ hg, List.length_map, List.length_range]

lemma Dominates.refl (bars : List Bar) (date c : Nat) :
    Dominates bars date c c :=
  Or.inr ⟨rfl, le_refl c⟩

lemma Dominates.trans {bars : List Bar} {date a b c : Nat}
    (h1 : Dominates bars date a b) (h2 : Dominates bars date b c) :
    Dominates bars date a c := by
  unfold Dominates at *
  omega

lemma pickBetter_dominates_left (bars : List Bar) (date a b : Nat) :
    Dominates bars date (pickBetter bars date a b) a := by
  unfold pickBetter
  split
  · next h =>
    unfold Dominates
    omega
  · exact Dominates.refl bars date a

lemma pickBetter_dominates_right (bars : List Bar) (date a b : Nat) :
    Dominates bars date (pickBetter bars date a b) b := by
  unfold pickBetter
  split
  · exact Dominates.refl bars date b
  · next h =>
    unfold Dominates
    omega

lemma pickBetter_mem (bars : List Bar) (date a b : Nat) :
    pickBetter bars date a b = a ∨ pickBetter bars date a b = b := by
  unfold pickBetter
  split
  · exact Or.inr rfl
  · exact Or.inl rfl

/-- The winner fold returns a member of the candidate list that dominates
every candidate. -/
lemma foldl_pickBetter_spec (bars : List Bar) (date : Nat) :
    ∀ (cs : List Nat) (c : Nat),
      cs.foldl (pickBetter bars date) c ∈ c :: cs ∧
        ∀ x ∈ c :: cs, Dominates bars date (cs.foldl (pickBetter bars date) c) x := by
  intro cs
  induction cs with
  | nil =>
    intro c
    refine ⟨List.mem_cons_self c [], ?_⟩
    intro x hx
    rcases List.mem_cons.1 hx with h | h
    · exact h ▸ Dominates.refl bars date c
    · exact absurd h (List.not_mem_nil x)
  | cons b cs ih =>
    intro c
    simp only [List.foldl_cons]
    obtain ⟨hmem, hdom⟩ := ih (pickBetter bars date c b)
    constructor
    · rcases List.mem_cons.1 hmem with h | h
      · rcases pickBetter_mem bars date c b with hp | hp
        · rw [h, hp]
          exact List.mem_cons_self c (b :: cs)
        · rw [h, hp]
          exact List.mem_cons_of_mem c (List.mem_cons_self b cs)
      · exact List.mem_cons_of_mem c (List.mem_cons_of_mem b h)
    · intro x hx
      have hself := hdom (pickBetter bars date c b)
        (List.mem_cons_self (pickBetter bars date c b) cs)
      rcases List.mem_cons.1 hx with h | h
      · exact h ▸ hself.trans (pickBetter_dominates_left bars date c b)
      · rcases List.mem_cons.1 h with h' | h'
        · exact h' ▸ hself.trans (pickBetter_dominates_right bars date c b)
        · exact hdom x (List.mem_cons_of_mem _ h')

/-- A winner belongs to the candidates and dominates every candidate. -/
lemma winner_spec {bars : List Bar} {contracts : List Contract} {sym : String}
    {d c : Nat} (h : winner bars contracts sym d = some c) :
    c ∈ candidates bars contracts sym d ∧
      ∀ c' ∈ candidates bars contracts sym d, Dominates bars d c c' := by
  unfold winner at h
  cases hcand : candidates bars contracts sym d with
  | nil => rw [hcand] at h; exact absurd h (by simp)
  | cons c0 cs =>
    rw [hcand] at h
    obtain ⟨hmem, hdom⟩ := foldl_pickBetter_spec bars d cs c0
    obtain rfl : cs.foldl (pickBetter bars d) c0 = c := by injection h
    exact ⟨hcand ▸ hmem, hcand ▸ hdom⟩

/-- A nonempty candidate list yields a winner. -/
lemma winner_isSome {bars : List Bar} {contracts : List Contract}
    {sym : String} {d : Nat} (h : candidates bars contracts sym d ≠ []) :
    ∃ c, winner bars contracts sym d = some c := by
  unfold winner
  cases hcand : candidates bars contracts sym d with
  | nil => exact absurd hcand h
  | cons c0 cs => exact ⟨_, rfl⟩

/-- Membership in the selector's output: exactly the allowed dates whose
winner is `c`. -/
lemma mem_compute_liquid_winners {bars : List Bar} {contracts : List Contract}
    {sym : String} {d c : Nat} :
    (d, c) ∈ compute_liquid_winners bars contracts sym ↔
      d ∈ allowed_dates bars contracts sym ∧
        winner bars contracts sym d = some c := by
  unfold compute_liquid_winners
  rw [List.mem_filterMap]
  constructor
  · rintro ⟨a, ha, hf⟩
    rcases hw : winner bars contracts sym a with _ | w
    · rw [hw] at hf; exact absurd hf (by simp)
    · rw [hw] at hf
      simp only [Option.map_some'] at hf
      obtain ⟨rfl, rfl⟩ : a = d ∧ w = c := by
        constructor <;> injection hf with h1 <;> simp_all
      exact ⟨ha, hw⟩
  · rintro ⟨ha, hw⟩
    exact ⟨d, ha, by rw [hw]; rfl⟩

/-- A candidate's eligibility facts, unfolded from the filter. -/
lemma mem_candidates {bars : List Bar} {contracts : List Contract}
    {sym : String} {d c : Nat} (h : c ∈ candidates bars contracts sym d) :
    contractEligible contracts sym d c = true ∧
      d ∈ allowed_dates bars contracts sym ∧
      MIN_DAILY_VOLUME ≤ volSum bars c d := by
  unfold candidates at h
  rw [List.mem_filter] at h
  have := h.2
  simp only [decide_eq_true_eq] at this
  exact ⟨by simp [this.1], this.2.1, this.2.2⟩

/-- Dates in `allowed_dates` have a bar of the symbol inside the open
window. -/
lemma mem_allowed_dates {bars : List Bar} {contracts : List Contract}
    {sym : String} {d : Nat} :
    d ∈ allowed_dates bars contracts sym ↔
      ∃ b, b ∈ bars ∧ contractOfSymbol contracts sym b.contract_id = true ∧
        inOpenWindow b.hm = true ∧ b.date = d := by
  unfold allowed_dates
  rw [mem_distinctSorted]
  simp only [List.mem_map, List.mem_filter]
  constructor
  · rintro ⟨b, ⟨hb, hpred⟩, hd⟩
    simp only [Bool.and_eq_true, decide_eq_true_eq] at hpred
    exact ⟨b, hb, by simp [hpred.1], by simp [hpred.2], hd⟩
  · rintro ⟨b, hb, hsym, hwin, hd⟩
    exact ⟨b, ⟨hb, by simp [hsym, hwin]⟩, hd⟩

/-! ## Claim theorems -/

/-- Claim C1: for every symbol, trade date and contract, the Reference Price
Builder's `price_close` and `prev_close` lookups select the `close` field of
the most recent bar whose hour:minute start time is strictly before the
configured close time (16:00) on that date for that contract; a bar starting
exactly at the close time is never used as that date's `price_close` or as any
`prev_close` value. -/
theorem claim_C1_close_strictly_before
    (bars : List Bar) (ld : List LiquidRow) (sym : String) (i : Nat)
    (hi : i < (fetch_trade_dates ld sym).length) :
    ∃ row cid,
      (process_symbol_rows bars ld sym)[i]? = some row ∧
      fetch_contract_for_date ld sym row.trade_date = some cid ∧
      row.price_close = get_price_at bars cid row.trade_date CLOSE_TIME_HM false ∧
      (∀ p, row.price_close = some p →
        IsLastCloseBefore bars cid row.trade_date CLOSE_TIME_HM p) ∧
      (∀ p, row.prev_close = some p →
        ∃ prev_day, 0 < i ∧ (fetch_trade_dates ld sym)[i-1]? = some prev_day ∧
          row.prev_close = get_price_at bars cid prev_day CLOSE_TIME_HM false ∧
          IsLastCloseBefore bars cid prev_day CLOSE_TIME_HM p) := by
  obtain ⟨cid, hc⟩ := fetch_contract_isSome
    (List.get_mem (fetch_trade_dates ld sym) i hi)
  have hd : (fetch_trade_dates ld sym)[i]? =
      some ((fetch_trade_dates ld sym).get ⟨i, hi⟩) := by simp
  have hget := process_symbol_rows_get bars hi
  rw [refRowAt_eq bars hd hc] at hget
  refine ⟨_, cid, hget, hc, rfl, ?_, ?_⟩
  · intro p hp
    exact get_price_at_false_spec hp
  · intro p hp
    by_cases h0 : 0 < i
    · have hi1 : i - 1 < (fetch_trade_dates ld sym).length := by omega
      have hprev : (fetch_trade_dates ld sym)[i-1]? =
          some ((fetch_trade_dates ld sym).get ⟨i - 1, hi1⟩) := by simp
      simp only [if_pos h0, hprev] at hp
      refine ⟨(fetch_trade_dates ld sym).get ⟨i - 1, hi1⟩, h0, hprev, ?_, ?_⟩
      · simp only [if_pos h0, hprev]
      · exact get_price_at_false_spec hp
    · simp only [if_neg h0] at hp
      exact absurd hp (by simp)

/-- Concrete run of C1 at row 1 of the evaluation store: the day-10 16:00 bar
(close 999) is skipped and the 15:55 close 110 becomes `prev_close`. -/
theorem claim_C1_witness :
    (process_symbol_rows wBars wLd "ES")[1]? =
        some ⟨"ES", 11, some 99, some 111, some 110⟩ ∧
      ∃ row cid, (process_symbol_rows wBars wLd "ES")[1]? = some row ∧
        fetch_contract_for_date wLd "ES" row.trade_date = some cid := by
  refine ⟨by decide, ?_⟩
  obtain ⟨row, cid, h1, h2, -⟩ :=
    claim_C1_close_strictly_before wBars wLd "ES" 1 (by decide)
  exact ⟨row, cid, h1, h2⟩

/-- Claim C2: for every symbol, in the LiquidDay sequence ordered by
trade_date, row `i` (for `i > 0`) has `prev_close` computed with the current
entry's winning contract id evaluated on entry `i-1`'s trade date — the prior
entry of the ordered sequence, not the calendar-previous day — and the first
entry's `prev_close` is always undefined. -/
theorem claim_C2_prev_close_prior_entry
    (bars : List Bar) (ld : List LiquidRow) (sym : String) (i : Nat)
    (hi : i < (fetch_trade_dates ld sym).length) :
    List.Sorted (· < ·) (fetch_trade_dates ld sym) ∧
    ∃ row cid,
      (process_symbol_rows bars ld sym)[i]? = some row ∧
      row.trade_date = (fetch_trade_dates ld sym).get ⟨i, hi⟩ ∧
      fetch_contract_for_date ld sym
        ((fetch_trade_dates ld sym).get ⟨i, hi⟩) = some cid ∧
      (i = 0 → row.prev_close = none) ∧
      (0 < i → ∃ prev_day, (fetch_trade_dates ld sym)[i-1]? = some prev_day ∧
        row.prev_close = get_price_at bars cid prev_day CLOSE_TIME_HM false) := by
  refine ⟨pairwise_distinctSorted _, ?_⟩
  obtain ⟨cid, hc⟩ := fetch_contract_isSome
    (List.get_mem (fetch_trade_dates ld sym) i hi)
  have hd : (fetch_trade_dates ld sym)[i]? =
      some ((fetch_trade_dates ld sym).get ⟨i, hi⟩) := by simp
  have hget := process_symbol_rows_get bars hi
  rw [refRowAt_eq bars hd hc] at hget
  refine ⟨_, cid, hget, rfl, hc, ?_, ?_⟩
  · rintro rfl
    rfl
  · intro h0
    have hi1 : i - 1 < (fetch_trade_dates ld sym).length := by omega
    have hprev : (fetch_trade_dates ld sym)[i-1]? =
        some ((fetch_trade_dates ld sym).get ⟨i - 1, hi1⟩) := by simp
    refine ⟨(fetch_trade_dates ld sym).get ⟨i - 1, hi1⟩, hprev, ?_⟩
    simp only [if_pos h0, hprev]

/-- Concrete run of C2 at row 0 of the evaluation store: the first trade
date's `prev_close` is undefined. -/
theorem claim_C2_witness :
    (process_symbol_rows wBars wLd "ES")[0]? =
        some ⟨"ES", 10, some 100, some 110, none⟩ ∧
      ∃ row, (process_symbol_rows wBars wLd "ES")[0]? = some row ∧
        row.prev_close = none := by
  refine ⟨by decide, ?_⟩
  obtain ⟨-, row, cid, h1, -, -, h4, -⟩ :=
    claim_C2_prev_close_prior_entry wBars wLd "ES" 0 (by decide)
  exact ⟨row, h1, h4 rfl⟩

/-- Claim C5: `price_open` is the `open` of the bar starting exactly at 09:30
on the day's date and contract when it exists; otherwise the `close` of the
most recent bar strictly before 09:30 on the same date and contract; if
neither bar exists, `price_open` is undefined. -/
theorem claim_C5_open_exact_then_fallback
    (bars : List Bar) (ld : List LiquidRow) (sym : String) (i : Nat)
    (hi : i < (fetch_trade_dates ld sym).length) (hkey : BarsKeyed bars) :
    ∃ row cid,
      (process_symbol_rows bars ld sym)[i]? = some row ∧
      fetch_contract_for_date ld sym row.trade_date = some cid ∧
      (∀ b, b ∈ bars → b.contract_id = cid → b.date = row.trade_date →
        b.hm = OPEN_TIME_HM → row.price_open = some b.open_) ∧
      ((∀ b, b ∈ bars →
          ¬(b.contract_id = cid ∧ b.date = row.trade_date ∧ b.hm = OPEN_TIME_HM)) →
        row.price_open =
          get_last_before bars cid row.trade_date OPEN_TIME_HM .close ∧
        (∀ p, row.price_open = some p →
          ∃ b, b ∈ bars ∧ b.contract_id = cid ∧ b.date = row.trade_date ∧
            b.hm < OPEN_TIME_HM ∧ b.close = p ∧
            ∀ b', b' ∈ bars → b'.contract_id = cid → b'.date = row.trade_date →
              b'.hm < OPEN_TIME_HM → b'.hm ≤ b.hm) ∧
        ((∀ b, b ∈ bars → b.contract_id = cid → b.date = row.trade_date →
            ¬ b.hm < OPEN_TIME_HM) → row.price_open = none)) := by
  obtain ⟨cid, hc⟩ := fetch_contract_isSome
    (List.get_mem (fetch_trade_dates ld sym) i hi)
  have hd : (fetch_trade_dates ld sym)[i]? =
      some ((fetch_trade_dates ld sym).get ⟨i, hi⟩) := by simp
  have hget := process_symbol_rows_get bars hi
  rw [refRowAt_eq bars hd hc] at hget
  refine ⟨_, cid, hget, hc, ?_, ?_⟩
  · intro b hb hbc hbd hbh
    show (match get_exact_field bars cid
        ((fetch_trade_dates ld sym).get ⟨i, hi⟩) OPEN_TIME_HM .open_ with
      | some p => some p
      | none => get_last_before bars cid
          ((fetch_trade_dates ld sym).get ⟨i, hi⟩) OPEN_TIME_HM .close) =
        some b.open_
    rw [get_exact_field_of_mem hkey hb hbc hbd hbh]
    rfl
  · intro hnone
    have hex : get_exact_field bars cid
        ((fetch_trade_dates ld sym).get ⟨i, hi⟩) OPEN_TIME_HM .open_ = none :=
      get_exact_field_eq_none hnone
    refine ⟨?_, ?_, ?_⟩
    · show (match get_exact_field bars cid
          ((fetch_trade_dates ld sym).get ⟨i, hi⟩) OPEN_TIME_HM .open_ with
        | some p => some p
        | none => get_last_before bars cid
            ((fetch_trade_dates ld sym).get ⟨i, hi⟩) OPEN_TIME_HM .close) = _
      rw [hex]
    · intro p hp
      have hp' : get_last_before bars cid
          ((fetch_trade_dates ld sym).get ⟨i, hi⟩) OPEN_TIME_HM .close =
            some p := by
        have : (match get_exact_field bars cid
            ((fetch_trade_dates ld sym).get ⟨i, hi⟩) OPEN_TIME_HM .open_ with
          | some p => some p
          | none => get_last_before bars cid
              ((fetch_trade_dates ld sym).get ⟨i, hi⟩) OPEN_TIME_HM .close) =
            some p := hp
        rwa [hex] at this
      exact get_last_before_spec hp'
    · intro hnobar
      show (match get_exact_field bars cid
          ((fetch_trade_dates ld sym).get ⟨i, hi⟩) OPEN_TIME_HM .open_ with
        | some p => some p
        | none => get_last_before bars cid
            ((fetch_trade_dates ld sym).get ⟨i, hi⟩) OPEN_TIME_HM .close) = none
      rw [hex, get_last_before_eq_none hnobar]

/-- Concrete run of C5 at row 1 of the evaluation store: day 11 has no 09:30
bar, so `price_open` falls back to the 09:25 close 99. -/
theorem claim_C5_witness :
    get_last_before wBars 1 11 OPEN_TIME_HM .close = some 99 ∧
      ∃ row, (process_symbol_rows wBars wLd "ES")[1]? = some row ∧
        row.price_open = get_last_before wBars 1 11 OPEN_TIME_HM .close := by
  refine ⟨by decide, ?_⟩
  obtain ⟨row, cid, h1, h2, -, h4⟩ :=
    claim_C5_open_exact_then_fallback wBars wLd "ES" 1 (by decide) (by decide)
  have hrowval : (process_symbol_rows wBars wLd "ES")[1]? =
      some (⟨"ES", 11, some 99, some 111, some 110⟩ : RefRow) := by decide
  rw [hrowval] at h1
  injection h1 with h1
  subst h1
  have hfc : fetch_contract_for_date wLd "ES"
      ((⟨"ES", 11, some 99, some 111, some 110⟩ : RefRow).trade_date) =
        some 1 := by decide
  rw [hfc] at h2
  injection h2 with h2
  subst h2
  exact ⟨_, hrowval, (h4 (by decide)).1⟩

/-- Claim C3: for every symbol and eligible trade date, the Liquidity
Selector's winner has the maximum summed daily volume among the contracts
passing the open-window, expiry-proximity and minimum-volume filters for that
date; ties go to the lowest contract id, and exactly one winner is produced
per eligible date. -/
theorem claim_C3_winner_max_volume
    (bars : List Bar) (contracts : List Contract) (sym : String) (d : Nat) :
    (candidates bars contracts sym d ≠ [] →
      ∃ c, (d, c) ∈ compute_liquid_winners bars contracts sym) ∧
    (∀ c, (d, c) ∈ compute_liquid_winners bars contracts sym →
      c ∈ candidates bars contracts sym d ∧
        ∀ c' ∈ candidates bars contracts sym d,
          volSum bars c' d < volSum bars c d ∨
            (volSum bars c' d = volSum bars c d ∧ c ≤ c')) ∧
    (∀ c c', (d, c) ∈ compute_liquid_winners bars contracts sym →
      (d, c') ∈ compute_liquid_winners bars contracts sym → c = c') := by
  refine ⟨?_, ?_, ?_⟩
  · intro hne
    obtain ⟨c0, hc0⟩ : ∃ c0, c0 ∈ candidates bars contracts sym d := by
      cases h : candidates bars contracts sym d with
      | nil => exact absurd h hne
      | cons x xs => exact ⟨x, h ▸ List.mem_cons_self x xs⟩
    obtain ⟨w, hw⟩ := winner_isSome hne
    exact ⟨w, mem_compute_liquid_winners.2
      ⟨(mem_candidates hc0).2.1, hw⟩⟩
  · intro c hmem
    obtain ⟨-, hw⟩ := mem_compute_liquid_winners.1 hmem
    exact winner_spec hw
  · intro c c' h1 h2
    obtain ⟨-, hw1⟩ := mem_compute_liquid_winners.1 h1
    obtain ⟨-, hw2⟩ := mem_compute_liquid_winners.1 h2
    rw [hw1] at hw2
    injection hw2

/-- Concrete run of C3: on day 11 contracts 1 and 2 tie at volume 2000 and
the lower contract id 1 wins. -/
theorem claim_C3_witness :
    ((11, 1) ∈ compute_liquid_winners wBars wContracts "ES" ∧
        volSum wBars 1 11 = volSum wBars 2 11) ∧
      1 ∈ candidates wBars wContracts "ES" 11 := by
  refine ⟨by decide, ?_⟩
  exact ((claim_C3_winner_max_volume wBars wContracts "ES" 11).2.1 1
    (by decide)).1

/-- Claim C4: a trade date on which no bar of any contract of the symbol
starts inside the configured open window never appears in the Liquidity
Selector's output, even if some contract met the volume and expiry filters
with bars outside the window on that date. -/
theorem claim_C4_no_window_bar_no_output
    (bars : List Bar) (contracts : List Contract) (sym : String) (d : Nat)
    (h : ∀ b, b ∈ bars → contractOfSymbol contracts sym b.contract_id = true →
      b.date = d →
      ¬(REQUIRED_OPEN_START_HM ≤ b.hm ∧ b.hm ≤ REQUIRED_OPEN_END_HM))
    (c : Nat) :
    (d, c) ∉ compute_liquid_winners bars contracts sym := by
  intro hmem
  obtain ⟨ha, -⟩ := mem_compute_liquid_winners.1 hmem
  obtain ⟨b, hb, hsym, hwin, hdate⟩ := mem_allowed_dates.1 ha
  have hw : REQUIRED_OPEN_START_HM ≤ b.hm ∧ b.hm < REQUIRED_OPEN_END_HM := by
    have := hwin
    unfold inOpenWindow at this
    simpa using this
  exact h b hb hsym hdate ⟨hw.1, le_of_lt hw.2⟩

/-- Concrete run of C4: the only symbol bar on day 5 starts at 11:40, outside
the 10:00–10:30 window, so day 5 is absent from the output despite the bar's
large volume. -/
theorem claim_C4_witness :
    (5, 1) ∉ compute_liquid_winners wBarsOutside wContractsOutside "ES" :=
  claim_C4_no_window_bar_no_output wBarsOutside wContractsOutside "ES" 5
    (by decide) 1

/-- Claim C6: for every trade date a contract is a candidate only if its
`last_trade_date` is set and `0 ≤ last_trade_date − trade_date ≤
MAX_DAYS_TO_LAST_DAY`; a contract whose rows all have `last_trade_date`
unset is never a winner, while a contract expiring exactly on the trade date
still passes the expiry filter that day. -/
theorem claim_C6_expiry_window
    (bars : List Bar) (contracts : List Contract) (sym : String) (d c : Nat) :
    ((d, c) ∈ compute_liquid_winners bars contracts sym →
      ∃ co, co ∈ contracts ∧ co.contract_id = c ∧ co.symbol_code = sym ∧
        ∃ ltd, co.last_trade_date = some ltd ∧ d ≤ ltd ∧
          ltd ≤ d + MAX_DAYS_TO_LAST_DAY) ∧
    ((∀ co, co ∈ contracts → co.contract_id = c → co.last_trade_date = none) →
      (d, c) ∉ compute_liquid_winners bars contracts sym) ∧
    (∀ co : Contract, co.last_trade_date = some d → expiryOk co d = true) := by
  have hmain : (d, c) ∈ compute_liquid_winners bars contracts sym →
      ∃ co, co ∈ contracts ∧ co.contract_id = c ∧ co.symbol_code = sym ∧
        ∃ ltd, co.last_trade_date = some ltd ∧ d ≤ ltd ∧
          ltd ≤ d + MAX_DAYS_TO_LAST_DAY := by
    intro hmem
    obtain ⟨-, hw⟩ := mem_compute_liquid_winners.1 hmem
    obtain ⟨hcand, -⟩ := winner_spec hw
    obtain ⟨helig, -, -⟩ := mem_candidates hcand
    unfold contractEligible at helig
    rw [List.any_eq_true] at helig
    obtain ⟨co, hco, hpred⟩ := helig
    simp only [decide_eq_true_eq] at hpred
    obtain ⟨hcid, hsym, hexp⟩ := hpred
    unfold expiryOk at hexp
    cases hltd : co.last_trade_date with
    | none => rw [hltd] at hexp; exact absurd hexp (by simp)
    | some ltd =>
      rw [hltd] at hexp
      simp only [decide_eq_true_eq] at hexp
      refine ⟨co, hco, hcid, hsym, ltd, hltd, ?_, ?_⟩ <;> omega
  refine ⟨hmain, ?_, ?_⟩
  · intro hnone hmem
    obtain ⟨co, hco, hcid, -, ltd, hltd, -⟩ := hmain hmem
    rw [hnone co hco hcid] at hltd
    exact absurd hltd (by simp)
  · intro co hco
    unfold expiryOk
    rw [hco]
    simp only [decide_eq_true_eq]
    constructor <;> omega

/-- Concrete run of C6: the day-10 winner (contract 1) has
`last_trade_date = 40`, inside the 100-day window. -/
theorem claim_C6_witness :
    (10, 1) ∈ compute_liquid_winners wBars wContracts "ES" ∧
      ∃ co, co ∈ wContracts ∧ co.contract_id = 1 ∧ co.symbol_code = "ES" ∧
        ∃ ltd, co.last_trade_date = some ltd ∧ 10 ≤ ltd ∧
          ltd ≤ 10 + MAX_DAYS_TO_LAST_DAY := by
  refine ⟨by decide, ?_⟩
  exact (claim_C6_expiry_window wBars wContracts "ES" 10 1).1 (by decide)

/-- A row with no `prev_close` has no intraday return (the `np.where` guard
requires `prev_close.notna`). -/
lemma intraday_log_eq_none_of_prev_none {r : RefRow} (h : r.prev_close = none) :
    intraday_log r = none := by
  cases hpo : r.price_open <;> cases hpc : r.price_close <;>
    simp [intraday_log, hpo, hpc, h]

/-- Claim C7: in the ordered reference-price series the overnight transition
into row `i+1` is classified "weekend" exactly when row `i` falls on a Friday
and row `i+1` on a Monday, "business" exactly when row `i` falls on Mon–Thu
and row `i+1` on the immediately following weekday, and never both. -/
theorem claim_C7_overnight_classification
    (rows : List RefRow) (i : Nat) (hi : i + 1 < rows.length) :
    (weekend_mask rows (i+1) = true ↔
      dayofweek ((rows.get ⟨i, Nat.lt_of_succ_lt hi⟩).trade_date) = 4 ∧
        dayofweek ((rows.get ⟨i+1, hi⟩).trade_date) = 0) ∧
    (business_mask rows (i+1) = true ↔
      dayofweek ((rows.get ⟨i, Nat.lt_of_succ_lt hi⟩).trade_date) ≤ 3 ∧
        dayofweek ((rows.get ⟨i+1, hi⟩).trade_date) =
          dayofweek ((rows.get ⟨i, Nat.lt_of_succ_lt hi⟩).trade_date) + 1) ∧
    ¬(weekend_mask rows (i+1) = true ∧ business_mask rows (i+1) = true) := by
  have hp : rows[i]? = some (rows.get ⟨i, Nat.lt_of_succ_lt hi⟩) := by simp
  have hc : rows[i+1]? = some (rows.get ⟨i+1, hi⟩) := by simp
  have hweek : weekend_mask rows (i+1) = true ↔
      dayofweek ((rows.get ⟨i, Nat.lt_of_succ_lt hi⟩).trade_date) = 4 ∧
        dayofweek ((rows.get ⟨i+1, hi⟩).trade_date) = 0 := by
    simp only [weekend_mask, hp, hc, Bool.and_eq_true, decide_eq_true_eq]
  have hbus : business_mask rows (i+1) = true ↔
      dayofweek ((rows.get ⟨i, Nat.lt_of_succ_lt hi⟩).trade_date) ≤ 3 ∧
        dayofweek ((rows.get ⟨i+1, hi⟩).trade_date) =
          dayofweek ((rows.get ⟨i, Nat.lt_of_succ_lt hi⟩).trade_date) + 1 := by
    simp only [business_mask, hp, hc, Bool.and_eq_true, decide_eq_true_eq]
  refine ⟨hweek, hbus, ?_⟩
  rintro ⟨hw, hb⟩
  have h1 := hweek.1 hw
  have h2 := hbus.1 hb
  omega

/-- Concrete run of C7: day 4 is a Friday and day 7 the following Monday, so
the transition classifies as weekend. -/
theorem claim_C7_witness :
    weekend_mask wRows 1 = true ∧
      dayofweek ((wRows.get ⟨0, by decide⟩).trade_date) = 4 ∧
        dayofweek ((wRows.get ⟨1, by decide⟩).trade_date) = 0 := by
  refine ⟨by decide, ?_⟩
  exact ((claim_C7_overnight_classification wRows 0 (by decide)).1).mp (by decide)

/-- Claim C8: the intraday log return of a row is defined only when that
row's `prev_close` exists; in particular the first row of the builder's
output always has an undefined intraday return. -/
theorem claim_C8_intraday_needs_prev_close :
    (∀ r : RefRow, r.prev_close = none → intraday_log r = none) ∧
    (∀ (bars : List Bar) (ld : List LiquidRow) (sym : String) (r : RefRow),
      (process_symbol_rows bars ld sym)[0]? = some r →
        intraday_log r = none) := by
  refine ⟨fun r h => intraday_log_eq_none_of_prev_none h, ?_⟩
  intro bars ld sym r h
  have hlt : 0 < (process_symbol_rows bars ld sym).length := by
    by_contra hle
    have hz : (process_symbol_rows bars ld sym)[0]? = none :=
      List.getElem?_eq_none (by omega)
    rw [hz] at h
    exact absurd h (by simp)
  have hdays : 0 < (fetch_trade_dates ld sym).length := by
    rw [process_symbol_rows_length bars] at hlt
    exact hlt
  obtain ⟨cid, hcf⟩ := fetch_contract_isSome
    (List.get_mem (fetch_trade_dates ld sym) 0 hdays)
  have hd : (fetch_trade_dates ld sym)[0]? =
      some ((fetch_trade_dates ld sym).get ⟨0, hdays⟩) := by simp
  have hget := process_symbol_rows_get bars hdays
  rw [refRowAt_eq bars hd hcf] at hget
  rw [hget] at h
  injection h with h
  have hprev : r.prev_close = none := by
    rw [← h]
    rfl
  exact intraday_log_eq_none_of_prev_none hprev

/-- Concrete run of C8: the first builder row of the evaluation store has
both prices but no `prev_close`, and its intraday return is undefined. -/
theorem claim_C8_witness :
    (process_symbol_rows wBars wLd "ES")[0]? =
        some ⟨"ES", 10, some 100, some 110, none⟩ ∧
      intraday_log ⟨"ES", 10, some 100, some 110, none⟩ = none := by
  refine ⟨by decide, ?_⟩
  exact claim_C8_intraday_needs_prev_close.2 wBars wLd "ES"
    ⟨"ES", 10, some 100, some 110, none⟩ (by decide)

/-- Claim C9: a dry-run invocation of the Liquidity Selector or the
Reference Price Builder leaves the persisted store unchanged. -/
theorem claim_C9_dry_run_no_writes (s : Store) (sym : String) :
    compute_liquid_contracts_run s sym true = s ∧
      process_symbol_run s sym true = s := by
  constructor
  · simp only [compute_liquid_contracts_run]
    split
    · rfl
    · rfl
  · simp only [process_symbol_run]
    split
    · rfl
    · rfl

/-- Counterexample to C10 as stated: with `price_open = 0` and a valid
`prev_close`, the overnight `np.where` guard passes and the logarithm is
applied to the ratio `0 / 1 = 0` (yielding `-inf`), so the engine does apply
the logarithm to a zero ratio. -/
theorem claim_C10_counterexample :
    overnight_log ⟨"ES", 0, some 0, some 1, some 1⟩ = some 0 := by
  norm_num [overnight_log]

/-- Claim C10 (amended): the engine never applies the logarithm to an
*undefined* ratio — when `price_open` is missing, `prev_close` is missing, or
`prev_close` is zero the overnight return is NaN, and the intraday return is
NaN when `price_open` is zero; a defined return always comes from present
operands with a nonzero denominator.  (A zero *numerator* — `price_open = 0`
overnight, `price_close = 0` intraday — still reaches the logarithm.) -/
theorem claim_C10_amended (r : RefRow) :
    ((r.price_open = none ∨ r.prev_close = none ∨ r.prev_close = some 0) →
      overnight_log r = none) ∧
    (r.price_open = some 0 → intraday_log r = none) ∧
    (∀ q, overnight_log r = some q →
      ∃ o p, r.price_open = some o ∧ r.prev_close = some p ∧ p ≠ 0 ∧
        q = o / p) ∧
    (∀ q, intraday_log r = some q →
      ∃ o c, r.price_open = some o ∧ r.price_close = some c ∧ o ≠ 0 ∧
        (r.prev_close).isSome = true ∧ q = c / o) := by
  obtain ⟨s, td, po, pc, pv⟩ := r
  refine ⟨?_, ?_, ?_, ?_⟩
  · rintro (h | h | h) <;> simp only at h <;> subst h
    · cases pv <;> simp [overnight_log]
    · cases po <;> simp [overnight_log]
    · cases po <;> simp [overnight_log]
  · intro h
    simp only at h
    subst h
    cases pc <;> cases pv <;> simp [intraday_log]
  · intro q h
    cases po with
    | none => exact absurd h (by simp [overnight_log])
    | some o =>
      cases pv with
      | none => exact absurd h (by simp [overnight_log])
      | some p =>
        by_cases hp : p = 0
        · subst hp
          exact absurd h (by simp [overnight_log])
        · simp only [overnight_log] at h
          rw [if_pos hp] at h
          injection h with h
          exact ⟨o, p, rfl, rfl, hp, h.symm⟩
  · intro q h
    cases po with
    | none => exact absurd h (by simp [intraday_log])
    | some o =>
      cases pc with
      | none => exact absurd h (by simp [intraday_log])
      | some c =>
        cases pv with
        | none => exact absurd h (by simp [intraday_log])
        | some p =>
          by_cases ho : o = 0
          · subst ho
            exact absurd h (by simp [intraday_log])
          · simp only [intraday_log] at h
            rw [if_pos ho] at h
            injection h with h
            exact ⟨o, c, rfl, rfl, ho, rfl, h.symm⟩

/-- Concrete run of the amended C10: a missing `price_open` gives an
undefined overnight return, and a zero `price_open` an undefined intraday
return. -/
theorem claim_C10_witness :
    overnight_log ⟨"ES", 0, none, some 1, some 2⟩ = none ∧
      intraday_log ⟨"ES", 0, some 0, some 1, some 2⟩ = none :=
  ⟨(claim_C10_amended ⟨"ES", 0, none, some 1, some 2⟩).1 (Or.inl rfl),
    (claim_C10_amended ⟨"ES", 0, some 0, some 1, some 2⟩).2.1 rfl⟩


end OvernightFutures
